import Mathlib

/-!
Shallow embedding of the `genmap` hash table (src/map.go) and proofs about
the specification's claims.

Modelling conventions:
* Go `uint64` hash values are modelled as `Nat`: the only operations performed
  on them are equality comparison and `%` by the bucket count, which agree
  with Go's unsigned semantics.
* `m.len` is a Go `int` and may be decremented below zero, so it is an `Int`.
* A Go slice of `MapElement` is modelled as an `ElemSlice`: its logical
  contents (a `List`) together with its capacity.  A `nil` slice is the slice
  with capacity `0` (in every state the table produces, a stored bucket or
  freed buffer has capacity `0` exactly when it is Go-`nil`, since every
  buffer handed out by the allocator has capacity at least 1).
* Backing memory beyond a slice's logical length is always zeroed in the Go
  program (fresh slabs come from `make` which zero-fills, `freeElemSlice`
  zeroes buffers before recycling them, and `remove` zeroes the vacated
  slot), so re-slicing `bucket[:len+1]` exposes one zero element; the model
  makes that explicit by appending `zeroElem`.
* Operations that can hit a Go run-time panic (`%` by a zero bucket count,
  `pos % 0` on an empty chain, the misuse panics of the iterator and the
  constructor) return `Option`, with `none` marking the panic.
* `Upsert` additionally returns the list of callback invocations (observed
  element and `exists` flag, in order), so that "the callback is invoked
  exactly once" is expressible.
-/

namespace Genmap

/-- Constant `maxFreeSlices` from src/map.go line 4. -/
def maxFreeSlices : Nat := 128

/-- Struct `MapElement[K, V]` (src/map.go lines 8-12): key, value and cached hash. -/
structure MapElement (K V : Type) where
  Key : K
  Value : V
  hash : Nat
deriving Repr, DecidableEq

/-- The zero value of `MapElement[K, V]` (Go's zero value for the struct). -/
def zeroElem {K V : Type} [Inhabited K] [Inhabited V] : MapElement K V :=
  ⟨default, default, 0⟩

/-- A Go slice of `MapElement`: logical contents plus capacity. -/
structure ElemSlice (K V : Type) where
  data : List (MapElement K V)
  cap : Nat
deriving Repr, DecidableEq

/-- The `nil` slice (length 0, capacity 0). -/
def nilSlice {K V : Type} : ElemSlice K V := ⟨[], 0⟩

/-- Go `copy(dst, src)`: overwrites the first `min (length src) (length dst)`
positions of `dst` with the corresponding elements of `src` and returns the
resulting contents of `dst`. -/
def goCopy {α : Type} (dst src : List α) : List α :=
  src.take dst.length ++ dst.drop (min src.length dst.length)

/-- Go `append(s, e)` for a single element.  When the slice is full the Go
runtime reallocates; for the small capacities that occur here it exactly
doubles the capacity. -/
def goAppend {K V : Type} (s : ElemSlice K V) (e : MapElement K V) : ElemSlice K V :=
  if s.data.length + 1 ≤ s.cap then ⟨s.data ++ [e], s.cap⟩
  else ⟨s.data ++ [e], max (2 * s.cap) (s.data.length + 1)⟩

/-- Struct `Map[K, V]` (src/map.go lines 16-23).  `allocBuffer` is represented by its
length: the slab's contents are always zero. -/
structure Map (K V : Type) where
  equal : K → K → Bool
  hash : K → Nat
  buckets : List (ElemSlice K V)
  len : Int
  allocBuffer : Nat
  freeSlices : List (ElemSlice K V)

/-- The chain scan shared by `Get`/`Put`/`Upsert`/`Remove`: slot 0 is checked
first, then slots `1..` (src/map.go lines 69-80 and the analogous loops); the
result is the first index whose cached hash equals `hash` and whose key is
`equal` to `key`. -/
def bucketFind {K V : Type} (equal : K → K → Bool) (hash : Nat) (key : K) :
    List (MapElement K V) → Option Nat
  | [] => none
  | e :: rest =>
    if e.hash == hash && equal e.Key key then some 0
    else (bucketFind equal hash key rest).map (· + 1)

/-- The slab-carving tail of `newElemSlice` (src/map.go lines 232-238): if the
current slab has fewer than `capacity` slots left, start a fresh 1024-slot
slab; carve `capacity` slots from the tail and return a view of length `size`
(all zero, since slabs are zero-filled). -/
def Map.carveSlice {K V : Type} [Inhabited K] [Inhabited V] (m : Map K V)
    (size capacity : Nat) : ElemSlice K V × Map K V :=
  let buf := if m.allocBuffer < capacity then 1024 else m.allocBuffer
  (⟨List.replicate size zeroElem, capacity⟩, { m with allocBuffer := buf - capacity })

/-- Allocator `newElemSlice` (src/map.go lines 225-239): if the free list is non-empty
and its most recent entry's *length* is at least `size`, pop and return it
unchanged; otherwise carve from the slab. -/
def Map.newElemSlice {K V : Type} [Inhabited K] [Inhabited V] (m : Map K V)
    (size capacity : Nat) : ElemSlice K V × Map K V :=
  match m.freeSlices.getLast? with
  | some s =>
    if size ≤ s.data.length then (s, { m with freeSlices := m.freeSlices.dropLast })
    else m.carveSlice size capacity
  | none => m.carveSlice size capacity

/-- Allocator `freeElemSlice` (src/map.go lines 241-251): zero the buffer's contents and
truncate it to length 0; push it onto the free list if there is room. -/
def Map.freeElemSlice {K V : Type} (m : Map K V) (slice : ElemSlice K V) : Map K V :=
  if m.freeSlices.length < maxFreeSlices then
    { m with freeSlices := m.freeSlices ++ [⟨[], slice.cap⟩] }
  else m

/-- Method `Len` (src/map.go lines 48-50). -/
def Map.Len {K V : Type} (m : Map K V) : Int := m.len

/-- Method `Clear` (src/map.go lines 53-58): every bucket becomes `nil`, `len` is 0. -/
def Map.Clear {K V : Type} (m : Map K V) : Map K V :=
  { m with buckets := List.replicate m.buckets.length nilSlice, len := 0 }

/-- Method `Get` (src/map.go lines 61-82).  The returned pair carries the map state
through, mirroring that the method has the whole `*Map` receiver in hand;
`none` is the `%`-by-zero panic of a zero bucket count.  The source's
`len(bucket) == 0` early return and the slot-0 fast path both coincide with
the first-match scan `bucketFind`. -/
def Map.Get {K V : Type} [Inhabited K] [Inhabited V] (m : Map K V) (key : K) :
    Option (Option V × Map K V) :=
  let h := m.hash key
  if m.buckets.length = 0 then none
  else
    let bucket := m.buckets.getD (h % m.buckets.length) nilSlice
    match bucketFind m.equal h key bucket.data with
    | some p => some (some (bucket.data.getD p zeroElem).Value, m)
    | none => some (none, m)

/-- The growth block of `Put`'s miss path (src/map.go lines 107-127), acting
on the bucket after the `nil` replacement.  Note (source lines 109-112): when
the chain is short and full, the freshly allocated chain receives only the
copied old entries — the new key/value element is never written on that
path. -/
def putGrow {K V : Type} [Inhabited K] [Inhabited V] (m : Map K V)
    (bucket : ElemSlice K V) (key : K) (val : V) (h : Nat) :
    ElemSlice K V × Map K V :=
  if bucket.data.length + 1 > bucket.cap then
    if bucket.data.length < 3 then
      let s := m.newElemSlice (bucket.data.length + 1) 4
      ({ s.1 with data := goCopy s.1.data bucket.data }, (s.2).freeElemSlice bucket)
    else (goAppend bucket ⟨key, val, h⟩, m)
  else ({ bucket with data := bucket.data ++ [⟨key, val, h⟩] }, m)

/-- The `bucket == nil` replacement (src/map.go lines 104-106 and 152-154):
`nil` is the capacity-0 slice in this model. -/
def replaceNil {K V : Type} [Inhabited K] [Inhabited V] (m : Map K V)
    (bucket : ElemSlice K V) : ElemSlice K V × Map K V :=
  if bucket.data.isEmpty && bucket.cap == 0 then m.newElemSlice 0 1 else (bucket, m)

/-- Method `Put` (src/map.go lines 85-129). -/
def Map.Put {K V : Type} [Inhabited K] [Inhabited V] (m : Map K V) (key : K) (val : V) :
    Option (Map K V) :=
  let h := m.hash key
  if m.buckets.length = 0 then none
  else
    let bid := h % m.buckets.length
    let bucket := m.buckets.getD bid nilSlice
    match bucketFind m.equal h key bucket.data with
    | some p =>
      let e := bucket.data.getD p zeroElem
      some { m with
        buckets := m.buckets.set bid { bucket with data := bucket.data.set p { e with Value := val } } }
    | none =>
      let s1 := replaceNil { m with len := m.len + 1 } bucket
      let s2 := putGrow s1.2 s1.1 key val h
      some { s2.2 with buckets := (s2.2).buckets.set bid s2.1 }

/-- The growth block of `Upsert`'s miss path (src/map.go lines 155-166):
re-slicing within capacity exposes one zero backing slot; the short-chain
reallocation copies the old entries into a fresh length `len+1` buffer whose
last slot is zero; the long-chain path appends an explicit zero element. -/
def upsertGrow {K V : Type} [Inhabited K] [Inhabited V] (m : Map K V)
    (bucket : ElemSlice K V) : ElemSlice K V × Map K V :=
  if bucket.data.length + 1 ≤ bucket.cap then
    ({ bucket with data := bucket.data ++ [zeroElem] }, m)
  else if bucket.data.length < 3 then
    let s := m.newElemSlice (bucket.data.length + 1) 4
    ({ s.1 with data := goCopy s.1.data bucket.data }, (s.2).freeElemSlice bucket)
  else (goAppend bucket zeroElem, m)

/-- Method `Upsert` (src/map.go lines 133-172).  `update` is the user callback; the
returned list records every invocation (observed element, `exists` flag) in
order.  The source stores the bucket and then mutates the final slot through
the pointer handed to the callback, so the stored slot holds `update e flag`.
The source's `pos := (len-1) % len` is a bounds-check-elimination identity
(the grown chain is never empty). -/
def Map.Upsert {K V : Type} [Inhabited K] [Inhabited V] (m : Map K V) (key : K)
    (update : MapElement K V → Bool → MapElement K V) :
    Option (Map K V × List (MapElement K V × Bool)) :=
  let h := m.hash key
  if m.buckets.length = 0 then none
  else
    let bid := h % m.buckets.length
    let bucket := m.buckets.getD bid nilSlice
    match bucketFind m.equal h key bucket.data with
    | some p =>
      let e := bucket.data.getD p zeroElem
      some ({ m with
        buckets := m.buckets.set bid { bucket with data := bucket.data.set p (update e true) } },
        [(e, true)])
    | none =>
      let s1 := replaceNil { m with len := m.len + 1 } bucket
      let s2 := upsertGrow s1.2 s1.1
      let pos := s2.1.data.length - 1
      let e := { s2.1.data.getD pos zeroElem with hash := h, Key := key }
      some ({ s2.2 with
        buckets := (s2.2).buckets.set bid { s2.1 with data := s2.1.data.set pos (update e false) } },
        [(e, false)])

/-- The internal removal-by-position primitive `remove` (src/map.go lines
196-218).  `m.len--` happens first; the two `%` reductions mirror the
source's bounds-check eliminations, and `% 0` on an empty chain is a panic
(`none`).  The left-shift `copy`, the zeroing of the vacated last slot and
the truncation together are `eraseIdx`.  The shrink branch is Go
`make([]MapElement[K,V], cap(bucket)/2)` followed by `copy`: a buffer whose
*length* (not only capacity) is `cap/2`, zero-padded past the remaining
entries. -/
def Map.remove {K V : Type} [Inhabited K] [Inhabited V] (m : Map K V)
    (bucketID pos : Nat) : Option (MapElement K V × Map K V) :=
  let m1 : Map K V := { m with len := m.len - 1 }
  if m1.buckets.length = 0 then none
  else
    let bid := bucketID % m1.buckets.length
    let bucket := m1.buckets.getD bid nilSlice
    if bucket.data.length = 0 then none
    else
      let p := pos % bucket.data.length
      let elem := bucket.data.getD p zeroElem
      let data := bucket.data.eraseIdx p
      if data.length = 0 then
        let m2 := m1.freeElemSlice { bucket with data := data }
        some (elem, { m2 with buckets := m2.buckets.set bid nilSlice })
      else if data.length + 1 < bucket.cap / 3 then
        some (elem, { m1 with
          buckets := m1.buckets.set bid
            ⟨goCopy (List.replicate (bucket.cap / 2) zeroElem) data, bucket.cap / 2⟩ })
      else
        some (elem, { m1 with buckets := m1.buckets.set bid { bucket with data := data } })

/-- Method `Remove` (src/map.go lines 175-194): returns the removed element and a
found flag (the zero element and `false` on a miss). -/
def Map.Remove {K V : Type} [Inhabited K] [Inhabited V] (m : Map K V) (key : K) :
    Option ((MapElement K V × Bool) × Map K V) :=
  let h := m.hash key
  if m.buckets.length = 0 then none
  else
    let bid := h % m.buckets.length
    let bucket := m.buckets.getD bid nilSlice
    match bucketFind m.equal h key bucket.data with
    | some p => (m.remove bid p).map fun r => ((r.1, true), r.2)
    | none => some ((zeroElem, false), m)

/-- Struct `MapIterator` cursor state (src/map.go lines 254-259); the `*Map` receiver
is passed explicitly to the methods. -/
structure MapIterator where
  mapPos : Nat
  pos : Nat
  ready : Bool
deriving Repr, DecidableEq

/-- The scan loop of `Next` (src/map.go lines 269-276), with explicit fuel;
`Next` supplies fuel `buckets.length + 1 - mapPos`, which bounds the number
of loop-condition checks, so the fuel never runs out before the loop's own
exit condition. -/
def nextScan {K V : Type} (m : Map K V) (mapPos pos : Nat) : Nat → MapIterator
  | 0 => ⟨mapPos, pos, false⟩
  | fuel + 1 =>
    if mapPos < m.buckets.length then
      if pos < (m.buckets.getD mapPos nilSlice).data.length then ⟨mapPos, pos, true⟩
      else nextScan m (mapPos + 1) 0 fuel
    else ⟨mapPos, pos, false⟩

/-- Method `Next` (src/map.go lines 262-279): consume the current slot if `ready`,
then scan forward for a valid position. -/
def MapIterator.Next {K V : Type} (it : MapIterator) (m : Map K V) :
    MapIterator × Bool :=
  let p := if it.ready then it.pos + 1 else it.pos
  let it' := nextScan m it.mapPos p (m.buckets.length + 1 - it.mapPos)
  (it', it'.ready)

/-- Method `Cur` (src/map.go lines 282-287): panics (`none`) unless `ready` and the
position is in bounds. -/
def MapIterator.Cur {K V : Type} [Inhabited K] [Inhabited V] (it : MapIterator)
    (m : Map K V) : Option (MapElement K V) :=
  if it.ready = false ∨ m.buckets.length ≤ it.mapPos ∨
      (m.buckets.getD it.mapPos nilSlice).data.length ≤ it.pos then none
  else some ((m.buckets.getD it.mapPos nilSlice).data.getD it.pos zeroElem)

/-- Iterator `Remove` (src/map.go lines 291-297): panics (`none`) unless
`ready`; clears `ready` and delegates to the table's removal primitive. -/
def MapIterator.Remove {K V : Type} [Inhabited K] [Inhabited V] (it : MapIterator)
    (m : Map K V) : Option (MapElement K V × Map K V × MapIterator) :=
  if it.ready = false then none
  else (m.remove it.mapPos it.pos).map fun r => (r.1, r.2, { it with ready := false })

/-- Method `Reset` (src/map.go lines 300-304). -/
def MapIterator.Reset (_ : MapIterator) : MapIterator := ⟨0, 0, false⟩

/-- Method `Iterator` (src/map.go lines 221-223). -/
def Map.Iterator {K V : Type} (_ : Map K V) : MapIterator := ⟨0, 0, false⟩

/-- Constructor `NewMap` (src/map.go lines 30-45): panics (`none`) when more than one
bucket-size override is supplied; the default size is `64 << 10`. -/
def NewMap {K V : Type} (equal : K → K → Bool) (hash : K → Nat)
    (bucketSizeOpt : List Nat) : Option (Map K V) :=
  if bucketSizeOpt.length > 1 then none
  else
    let bucketsSize := if bucketSizeOpt.length = 1 then bucketSizeOpt.getD 0 0 else 64 <<< 10
    some { equal := equal, hash := hash,
           buckets := List.replicate bucketsSize nilSlice,
           len := 0, allocBuffer := 0, freeSlices := [] }

/-! ### Concrete instantiation used for executable runs

`K = V = Nat`, the identity hash and `Nat` equality, so that bucket
placement is fully under control of the chosen keys. -/

/-- Plain `Nat` equality as the user-supplied equality function. -/
def eqNat (a b : Nat) : Bool := a == b

/-- The identity function as the user-supplied hash function. -/
def idNat (k : Nat) : Nat := k

/-- Step form of `Put`, composable through `Option`. -/
def putStep (k v : Nat) (m : Map Nat Nat) : Option (Map Nat Nat) := m.Put k v

/-- Step form of `Remove`, composable through `Option` (drops the returned element). -/
def removeStep (k : Nat) (m : Map Nat Nat) : Option (Map Nat Nat) :=
  (m.Remove k).map (fun r => r.2)

/-- A concrete single-bucket table (the state `NewMap(eqNat, idNat, 1)`
produces), used to instantiate hypotheses of the general theorems. -/
def mOne : Map Nat Nat :=
  { equal := eqNat, hash := idNat, buckets := [nilSlice], len := 0,
    allocBuffer := 0, freeSlices := [] }

/-- Nine `Put`s of the keys `1..9` into a single-bucket table.  The chain
grows `cap 1 → 4 → 8 → 16`; the second `Put` takes the short-chain
reallocation path, which loses key `2` and stores a zero element instead. -/
def trace9Puts : Option (Map Nat Nat) :=
  (NewMap eqNat idNat [1]).bind (putStep 1 10) |>.bind (putStep 2 20)
    |>.bind (putStep 3 30) |>.bind (putStep 4 40) |>.bind (putStep 5 50)
    |>.bind (putStep 6 60) |>.bind (putStep 7 70) |>.bind (putStep 8 80)
    |>.bind (putStep 9 90)

/-- State `trace9Puts` followed by removal of five keys: the chain holds 4 entries
(capacity 16), one short of the shrink threshold. -/
def trace9Rem5 : Option (Map Nat Nat) :=
  trace9Puts.bind (removeStep 1) |>.bind (removeStep 3) |>.bind (removeStep 4)
    |>.bind (removeStep 5) |>.bind (removeStep 6)

/-- State `trace9Rem5` followed by one more removal, which triggers the shrink
branch of `remove`. -/
def traceShrunk : Option (Map Nat Nat) :=
  trace9Rem5.bind (removeStep 7)

/-- Two colliding keys in a two-bucket table (both `1` and `3` hash to bucket
index 1). -/
def traceTwoCollide : Option (Map Nat Nat) :=
  (NewMap eqNat idNat [2]).bind (putStep 1 10) |>.bind (putStep 3 30)

/-- Builds an allocator state whose free list ends with a capacity-4 buffer:
keys `2` and `4` collide in bucket 0 of a two-bucket table (freeing the
capacity-1 buffer during growth), then emptying bucket 0 frees the
capacity-4 buffer.  (`removeStep 0` removes the zero element that the second
`Put` left in the chain.) -/
def traceFreeList : Option (Map Nat Nat) :=
  (NewMap eqNat idNat [2]).bind (putStep 1 10) |>.bind (putStep 2 20)
    |>.bind (putStep 4 40) |>.bind (removeStep 2) |>.bind (removeStep 0)

/-- A single-bucket table holding key `7`: the first `Put 8` below collides
with it in the full capacity-1 chain. -/
def tracePutPutA : Option (Map Nat Nat) :=
  (NewMap eqNat idNat [1]).bind (putStep 7 70)

/-- State `tracePutPutA` after `Put 8 1`. -/
def tracePutPutB : Option (Map Nat Nat) := tracePutPutA.bind (putStep 8 1)

/-- State `tracePutPutB` after `Put 8 2`. -/
def tracePutPutC : Option (Map Nat Nat) := tracePutPutB.bind (putStep 8 2)

/-- The spec's remove-during-iteration loop: repeatedly call `Next()` and,
after each successful `Next`, `Remove()`; collect the removed keys in order.
`fuel` bounds the number of iterations. -/
def drainAlternating {K V : Type} [Inhabited K] [Inhabited V] (m : Map K V)
    (it : MapIterator) : Nat → List K × Map K V
  | 0 => ([], m)
  | fuel + 1 =>
    let n := it.Next m
    if n.2 then
      match (n.1).Remove m with
      | some r =>
        let rest := drainAlternating r.2.1 r.2.2 fuel
        (r.1.Key :: rest.1, rest.2)
      | none => ([], m)
    else ([], m)

/-- The Upsert contract of the spec, stated over the embedding: the callback
is invoked exactly once; on a miss it observes `exists = false` on an element
whose key and cached hash are set and whose value is the zero value, the
length grows by one, and the observed slot is the final (last) slot of the
stored chain; on a hit it observes `exists = true` on the existing slot, the
length is unchanged, and the stored slot holds the callback's result. -/
def UpsertContract {K V : Type} [Inhabited K] [Inhabited V] (m : Map K V) (key : K)
    (update : MapElement K V → Bool → MapElement K V) : Prop :=
  ∃ (m' : Map K V) (obs : List (MapElement K V × Bool)),
    m.Upsert key update = some (m', obs) ∧
    (match bucketFind m.equal (m.hash key) key
        (m.buckets.getD (m.hash key % m.buckets.length) nilSlice).data with
     | some p =>
       obs = [((m.buckets.getD (m.hash key % m.buckets.length) nilSlice).data.getD p zeroElem,
               true)] ∧
       m'.len = m.len ∧
       (m'.buckets.getD (m.hash key % m.buckets.length) nilSlice).data.getD p zeroElem
         = update ((m.buckets.getD (m.hash key % m.buckets.length) nilSlice).data.getD p
             zeroElem) true
     | none =>
       obs = [(⟨key, default, m.hash key⟩, false)] ∧
       m'.len = m.len + 1 ∧
       (m'.buckets.getD (m.hash key % m.buckets.length) nilSlice).data.getLast?
         = some (update ⟨key, default, m.hash key⟩ false))

/-- The result `Upsert` produces on a miss (src/map.go lines 151-171),
named so that the contract proof can speak about its parts. -/
def upsertMissResult {K V : Type} [Inhabited K] [Inhabited V] (m : Map K V) (key : K)
    (update : MapElement K V → Bool → MapElement K V) :
    Map K V × List (MapElement K V × Bool) :=
  let bid := m.hash key % m.buckets.length
  let s1 := replaceNil { m with len := m.len + 1 } (m.buckets.getD bid nilSlice)
  let s2 := upsertGrow s1.2 s1.1
  let pos := s2.1.data.length - 1
  let e := { s2.1.data.getD pos zeroElem with hash := m.hash key, Key := key }
  ({ s2.2 with
      buckets := s2.2.buckets.set bid ({ s2.1 with data := s2.1.data.set pos (update e false) }) },
    [(e, false)])

/-! ### Claim theorems -/

/-- C1 (code bug).  The spec's invariant `Table.len == sum(len(bucket))`
fails on a state reachable by `Put`s and `Remove`s alone: after nine `Put`s
into one bucket and six `Remove`s, the shrink branch of `remove`
(`make([]MapElement, cap/2)`) leaves the chain with logical length `8`
(zero-padded) while `len` is `3`. -/
theorem c1_len_sum_counterexample :
    traceShrunk.map
        (fun m => (m.Len, (m.buckets.map (fun b => (b.data.length : Int))).sum))
      = some (3, 8) := by decide

/-- C2 (code bug).  Removing key `7` from a 4-entry chain of capacity 16
triggers the shrink branch; the claim says the bucket afterwards contains
exactly the 3 remaining entries and its length equals 3, but the code's
`make([]MapElement, cap/2)` produces a chain of length `8` (capacity `8`),
holding the 3 remaining entries followed by five zero elements. -/
theorem c2_shrink_pads_counterexample :
    (trace9Rem5.map fun m =>
        ((m.buckets.getD 0 nilSlice).data.length, (m.buckets.getD 0 nilSlice).cap))
      = some (4, 16) ∧
    (traceShrunk.map fun m =>
        ((m.buckets.getD 0 nilSlice).data.length, (m.buckets.getD 0 nilSlice).cap,
         (m.buckets.getD 0 nilSlice).data.map (fun e => (e.Key, e.Value))))
      = some (8, 8, [(0, 0), (8, 80), (9, 90), (0, 0), (0, 0), (0, 0), (0, 0), (0, 0)]) := by
  exact ⟨by decide, by decide⟩

/-- C3 (code bug).  On the reachable table with `Len() = 9` produced by
`trace9Puts`, alternating `Next()`/`Remove()` performs `14` successful
`Next()` calls (not `9`), ends with `Len() = -5` (not `0`), never visits the
inserted key `2` (lost by `Put`), and visits the key `0` of phantom zero
elements six times. -/
theorem c3_drain_counterexample :
    trace9Puts.map
        (fun m => (m.Len,
          (drainAlternating m ⟨0, 0, false⟩ 20).1,
          (drainAlternating m ⟨0, 0, false⟩ 20).1.length,
          (drainAlternating m ⟨0, 0, false⟩ 20).2.Len))
      = some (9, [1, 0, 3, 4, 5, 6, 7, 8, 9, 0, 0, 0, 0, 0], 14, -5) := by decide

/-- C5 (code bug).  In the two-bucket table reached by `Put 1; Put 3`
(both keys hash to bucket index 1), slot 1 of bucket 1 holds the zero
element the second `Put` left behind: its cached hash is `0`, and
`0 % 2 = 0 ≠ 1`, violating `cachedHash mod bucketCount == bucketIndex`. -/
theorem c5_cached_hash_counterexample :
    traceTwoCollide.map
        (fun m => (m.buckets.length,
          (m.buckets.getD 1 nilSlice).data.map (fun e => (e.Key, e.hash, e.hash % 2))))
      = some (2, [(1, 1, 1), (0, 0, 0)]) := by decide

/-- C6 (code bug).  In the reachable allocator state of `traceFreeList`
the free list is `[(len 0, cap 1), (len 0, cap 4)]` — its most recently freed
buffer has capacity `4` — and the slab has `1018` slots.  Requesting
`newElemSlice(2, 4)` (the exact request `Put`'s growth path makes) does not
reuse that buffer: the free list is left untouched and four fresh slots are
carved from the slab, because the code compares the freed buffer's *length*
(always 0) with `size` instead of its capacity with the requested capacity. -/
theorem c6_freelist_counterexample :
    (traceFreeList.map fun m =>
        (m.freeSlices.map (fun s => (s.data.length, s.cap)), m.allocBuffer))
      = some ([(0, 1), (0, 4)], 1018) ∧
    (traceFreeList.map fun m =>
        ((m.newElemSlice 2 4).1.data.length, (m.newElemSlice 2 4).1.cap,
         (m.newElemSlice 2 4).2.freeSlices.map (fun s => (s.data.length, s.cap)),
         (m.newElemSlice 2 4).2.allocBuffer))
      = some (2, 4, [(0, 1), (0, 4)], 1014) := by
  exact ⟨by decide, by decide⟩

/-- C8 (code bug).  On the single-bucket table holding key `7`,
`Put(8, 1); Put(8, 2)` changes `Len()` from `2` to `3`: the first `Put 8`
takes the short-chain reallocation path, which never writes key `8`, so the
second `Put 8` misses and inserts again.  (`Get 8` does return `(2, true)`
afterwards.) -/
theorem c8_put_put_counterexample :
    tracePutPutB.map Map.Len = some 2 ∧
    tracePutPutC.map Map.Len = some 3 ∧
    (tracePutPutC.bind fun m => (m.Get 8).map (fun r => r.1)) = some (some 2) := by
  exact ⟨by decide, by decide, by decide⟩

/-! ### List helper lemmas -/

theorem getD_set_self {α : Type} (l : List α) (i : Nat) (x d : α) (h : i < l.length) :
    (l.set i x).getD i d = x := by
  induction l generalizing i with
  | nil => simp at h
  | cons a t ih =>
    cases i with
    | zero => rfl
    | succ n =>
      rw [List.set_cons_succ, List.getD_cons_succ]
      exact ih n (by simpa using h)

theorem getD_concat {α : Type} (l : List α) (a d : α) :
    (l ++ [a]).getD l.length d = a := by
  induction l with
  | nil => rfl
  | cons x t ih =>
    rw [List.cons_append, List.length_cons, List.getD_cons_succ]
    exact ih

theorem set_concat {α : Type} (l : List α) (a b : α) :
    (l ++ [a]).set l.length b = l ++ [b] := by
  induction l with
  | nil => rfl
  | cons x t ih =>
    rw [List.cons_append, List.length_cons, List.set_cons_succ, ih, List.cons_append]

theorem bucketFind_lt_length {K V : Type} {equal : K → K → Bool} {h : Nat} {key : K}
    {l : List (MapElement K V)} {p : Nat} (hf : bucketFind equal h key l = some p) :
    p < l.length := by
  induction l generalizing p with
  | nil => simp [bucketFind] at hf
  | cons e rest ih =>
    rw [bucketFind] at hf
    by_cases hm : (e.hash == h && equal e.Key key) = true
    · rw [if_pos hm] at hf
      cases hf
      simp
    · rw [if_neg hm] at hf
      match hr : bucketFind equal h key rest with
      | none => rw [hr] at hf; cases hf
      | some q =>
        rw [hr] at hf
        cases hf
        simpa using Nat.succ_lt_succ (ih hr)

theorem goCopy_replicate {α : Type} (l : List α) (z : α) :
    goCopy (List.replicate (l.length + 1) z) l = l ++ [z] := by
  unfold goCopy
  rw [List.length_replicate, List.take_of_length_le (by omega),
    Nat.min_eq_left (by omega), List.replicate_succ' l.length z]
  congr 1
  have hd := List.drop_left (List.replicate l.length z) [z]
  rwa [List.length_replicate] at hd

/-! ### Allocator state lemmas -/

theorem carveSlice_fields {K V : Type} [Inhabited K] [Inhabited V] (m : Map K V)
    (s c : Nat) :
    (m.carveSlice s c).1 = ⟨List.replicate s zeroElem, c⟩ ∧
    (m.carveSlice s c).2.len = m.len ∧ (m.carveSlice s c).2.buckets = m.buckets ∧
    (m.carveSlice s c).2.freeSlices = m.freeSlices :=
  ⟨rfl, rfl, rfl, rfl⟩

theorem newElemSlice_state {K V : Type} [Inhabited K] [Inhabited V] (m : Map K V)
    (s c : Nat) :
    (m.newElemSlice s c).2.len = m.len ∧ (m.newElemSlice s c).2.buckets = m.buckets ∧
    ∀ x ∈ (m.newElemSlice s c).2.freeSlices, x ∈ m.freeSlices := by
  unfold Map.newElemSlice
  split
  · split
    · exact ⟨rfl, rfl, fun x hx => (List.dropLast_sublist m.freeSlices).subset hx⟩
    · exact ⟨rfl, rfl, fun x hx => hx⟩
  · exact ⟨rfl, rfl, fun x hx => hx⟩

theorem newElemSlice_of_free_empty {K V : Type} [Inhabited K] [Inhabited V]
    (m : Map K V) (s c : Nat) (hs : s ≠ 0)
    (hfree : ∀ x ∈ m.freeSlices, x.data = []) :
    (m.newElemSlice s c).1 = ⟨List.replicate s zeroElem, c⟩ := by
  unfold Map.newElemSlice
  split
  · rename_i t hl
    have ht : t.data = [] := hfree t (List.mem_of_mem_getLast? hl)
    rw [if_neg (by rw [ht]; simpa using hs)]
    rfl
  · rfl

theorem newElemSlice_empty_data {K V : Type} [Inhabited K] [Inhabited V]
    (m : Map K V) (c : Nat) (hfree : ∀ x ∈ m.freeSlices, x.data = []) :
    (m.newElemSlice 0 c).1.data = [] := by
  unfold Map.newElemSlice
  split
  · rename_i t hl
    rw [if_pos (Nat.zero_le _)]
    exact hfree t (List.mem_of_mem_getLast? hl)
  · rfl

theorem freeElemSlice_fields {K V : Type} (m : Map K V) (s : ElemSlice K V) :
    (m.freeElemSlice s).len = m.len ∧ (m.freeElemSlice s).buckets = m.buckets ∧
    ∀ x ∈ (m.freeElemSlice s).freeSlices, x ∈ m.freeSlices ∨ x.data = [] := by
  unfold Map.freeElemSlice
  by_cases hc : m.freeSlices.length < maxFreeSlices
  · rw [if_pos hc]
    refine ⟨rfl, rfl, fun x hx => ?_⟩
    rcases List.mem_append.mp hx with hx | hx
    · exact Or.inl hx
    · right
      simp at hx
      rw [hx]
  · rw [if_neg hc]
    exact ⟨rfl, rfl, fun x hx => Or.inl hx⟩

theorem replaceNil_fields {K V : Type} [Inhabited K] [Inhabited V] (m : Map K V)
    (b : ElemSlice K V) (hfree : ∀ x ∈ m.freeSlices, x.data = []) :
    (replaceNil m b).1.data = b.data ∧ (replaceNil m b).2.len = m.len ∧
    (replaceNil m b).2.buckets = m.buckets ∧
    ∀ x ∈ (replaceNil m b).2.freeSlices, x ∈ m.freeSlices := by
  unfold replaceNil
  by_cases hc : (b.data.isEmpty && b.cap == 0) = true
  · rw [if_pos hc]
    have hempty : b.data = [] := by
      have := (Bool.and_eq_true _ _).mp hc |>.1
      simpa [List.isEmpty_iff] using this
    obtain ⟨h1, h2, h3⟩ := newElemSlice_state m 0 1
    exact ⟨by rw [newElemSlice_empty_data m 1 hfree, hempty], h1, h2, h3⟩
  · rw [if_neg hc]
    exact ⟨rfl, rfl, rfl, fun x hx => hx⟩

/-! ### Upsert growth lemma -/

theorem upsertGrow_spec {K V : Type} [Inhabited K] [Inhabited V] (m : Map K V)
    (b : ElemSlice K V) (hfree : ∀ x ∈ m.freeSlices, x.data = []) :
    (upsertGrow m b).1.data = b.data ++ [zeroElem] ∧
    (upsertGrow m b).2.len = m.len ∧ (upsertGrow m b).2.buckets = m.buckets := by
  unfold upsertGrow
  by_cases h1 : b.data.length + 1 ≤ b.cap
  · rw [if_pos h1]
    exact ⟨rfl, rfl, rfl⟩
  · rw [if_neg h1]
    by_cases h2 : b.data.length < 3
    · rw [if_pos h2]
      refine ⟨?_, ?_, ?_⟩
      · show goCopy (m.newElemSlice (b.data.length + 1) 4).1.data b.data
            = b.data ++ [zeroElem]
        rw [newElemSlice_of_free_empty m (b.data.length + 1) 4 (by omega) hfree]
        exact goCopy_replicate b.data zeroElem
      · show ((m.newElemSlice _ 4).2.freeElemSlice b).len = m.len
        rw [(freeElemSlice_fields _ b).1, (newElemSlice_state m _ 4).1]
      · show ((m.newElemSlice _ 4).2.freeElemSlice b).buckets = m.buckets
        rw [(freeElemSlice_fields _ b).2.1, (newElemSlice_state m _ 4).2.1]
    · rw [if_neg h2]
      refine ⟨?_, rfl, rfl⟩
      unfold goAppend
      by_cases h3 : b.data.length + 1 ≤ b.cap
      · rw [if_pos h3]
      · rw [if_neg h3]

/-! ### Remaining claim theorems -/

theorem upsert_eq_of_found {K V : Type} [Inhabited K] [Inhabited V]
    (m : Map K V) (key : K) (update : MapElement K V → Bool → MapElement K V)
    (p : Nat) (hb : m.buckets.length ≠ 0)
    (hfind : bucketFind m.equal (m.hash key) key
      (m.buckets.getD (m.hash key % m.buckets.length) nilSlice).data = some p) :
    m.Upsert key update = some
      ({ m with
          buckets := m.buckets.set (m.hash key % m.buckets.length)
              ({ m.buckets.getD (m.hash key % m.buckets.length) nilSlice with
                  data := (m.buckets.getD (m.hash key % m.buckets.length) nilSlice).data.set p
                      (update ((m.buckets.getD (m.hash key % m.buckets.length)
                        nilSlice).data.getD p zeroElem) true) }) },
        [((m.buckets.getD (m.hash key % m.buckets.length) nilSlice).data.getD p zeroElem,
          true)]) := by
  unfold Map.Upsert
  rw [if_neg hb]
  simp only [hfind]

theorem upsert_eq_of_missing {K V : Type} [Inhabited K] [Inhabited V]
    (m : Map K V) (key : K) (update : MapElement K V → Bool → MapElement K V)
    (hb : m.buckets.length ≠ 0)
    (hfind : bucketFind m.equal (m.hash key) key
      (m.buckets.getD (m.hash key % m.buckets.length) nilSlice).data = none) :
    m.Upsert key update = some (upsertMissResult m key update) := by
  unfold Map.Upsert upsertMissResult
  rw [if_neg hb]
  simp only [hfind]

/-- C4 (confirmed).  For every table with a non-zero bucket count whose
free list holds only zeroed buffers (true of every reachable state, since
`freeElemSlice` empties a buffer before pushing it), `Upsert` invokes the
callback exactly once, after the slot's storage location is final: on a miss
the callback sees `exists = false` on an element with the key and cached hash
set and the zero value, `len` grows by one, and the stored chain's last slot
holds the callback's result; on a hit it sees `exists = true` on the existing
slot at its position `p`, `len` is unchanged, and slot `p` of the stored
chain holds the callback's result. -/
theorem c4_upsert_contract {K V : Type} [Inhabited K] [Inhabited V]
    (m : Map K V) (key : K) (update : MapElement K V → Bool → MapElement K V)
    (hb : m.buckets.length ≠ 0) (hfree : ∀ x ∈ m.freeSlices, x.data = []) :
    UpsertContract m key update := by
  have hbid : m.hash key % m.buckets.length < m.buckets.length :=
    Nat.mod_lt _ (Nat.pos_of_ne_zero hb)
  unfold UpsertContract
  cases hfind : bucketFind m.equal (m.hash key) key
      (m.buckets.getD (m.hash key % m.buckets.length) nilSlice).data with
  | some p =>
    have hp : p < (m.buckets.getD (m.hash key % m.buckets.length) nilSlice).data.length :=
      bucketFind_lt_length hfind
    refine ⟨_, _, upsert_eq_of_found m key update p hb hfind, rfl, rfl, ?_⟩
    dsimp only
    rw [getD_set_self _ _ _ _ hbid, getD_set_self _ _ _ _ hp]
  | none =>
    obtain ⟨hrd, hrl, hrb, hrf⟩ :=
      replaceNil_fields ({ m with len := m.len + 1 } : Map K V)
        (m.buckets.getD (m.hash key % m.buckets.length) nilSlice) hfree
    obtain ⟨hgd, hgl, hgb⟩ :=
      upsertGrow_spec
        (replaceNil ({ m with len := m.len + 1 } : Map K V)
          (m.buckets.getD (m.hash key % m.buckets.length) nilSlice)).2
        (replaceNil ({ m with len := m.len + 1 } : Map K V)
          (m.buckets.getD (m.hash key % m.buckets.length) nilSlice)).1
        (fun x hx => hfree x (hrf x hx))
    rw [hrd] at hgd
    refine ⟨_, _, upsert_eq_of_missing m key update hb hfind, ?_, ?_, ?_⟩
    · simp only [upsertMissResult]
      rw [hgd, List.length_append, List.length_singleton, Nat.add_sub_cancel, getD_concat]
      rfl
    · simp only [upsertMissResult]
      rw [hgl, hrl]
    · simp only [upsertMissResult]
      rw [hgb, hrb]
      dsimp only
      rw [getD_set_self _ _ _ _ hbid]
      dsimp only
      rw [hgd, List.length_append, List.length_singleton, Nat.add_sub_cancel, set_concat,
        List.getLast?_concat, getD_concat]
      rfl

/-- Witness for C4: the contract instantiated on the concrete single-bucket
table `mOne`, key `5` and the identity callback. -/
theorem c4_upsert_contract_witness :
    UpsertContract mOne 5 (fun e _ => e) :=
  c4_upsert_contract mOne 5 (fun e _ => e) (by decide) (by intro x hx; cases hx)

/-- C7 (confirmed).  Every listed misuse is a panic (`none`) rather than
a returned value: `Cur` and `Remove` on an iterator whose `ready` flag is
false, and `NewMap` with more than one bucket-size override. -/
theorem c7_misuse_is_fatal {K V : Type} [Inhabited K] [Inhabited V] :
    (∀ (m : Map K V) (it : MapIterator), it.ready = false →
      it.Cur m = none ∧ it.Remove m = none) ∧
    (∀ (equal : K → K → Bool) (hash : K → Nat) (opts : List Nat), opts.length > 1 →
      NewMap (K := K) (V := V) equal hash opts = none) := by
  constructor
  · intro m it hready
    constructor
    · unfold MapIterator.Cur
      rw [if_pos (Or.inl hready)]
    · unfold MapIterator.Remove
      rw [if_pos hready]
  · intro equal hash opts hopts
    unfold NewMap
    rw [if_pos hopts]

/-- Witness for C7: a not-ready iterator over `mOne` and a two-element
override list. -/
theorem c7_misuse_is_fatal_witness :
    MapIterator.Cur ⟨0, 0, false⟩ mOne = none ∧
    MapIterator.Remove ⟨0, 0, false⟩ mOne = none ∧
    NewMap (K := Nat) (V := Nat) eqNat idNat [3, 5] = none := by
  obtain ⟨h1, h2⟩ := c7_misuse_is_fatal (K := Nat) (V := Nat)
  exact ⟨(h1 mOne ⟨0, 0, false⟩ rfl).1, (h1 mOne ⟨0, 0, false⟩ rfl).2,
    h2 eqNat idNat [3, 5] (by decide)⟩

/-- C9 (confirmed).  Constructing with an explicit bucket-count override
of `0` succeeds (the bucket array is empty), and every subsequent `Get`,
`Put`, `Upsert`, `Remove` — and the internal removal primitive — hits the
`%`-by-zero panic (`none`); no operation guards against a zero bucket
count. -/
theorem c9_zero_bucket_override {K V : Type} [Inhabited K] [Inhabited V]
    (equal : K → K → Bool) (hash : K → Nat) :
    ∃ m : Map K V, NewMap equal hash [0] = some m ∧ m.buckets = [] ∧
      (∀ key, m.Get key = none) ∧ (∀ key val, m.Put key val = none) ∧
      (∀ key update, m.Upsert key update = none) ∧
      (∀ key, m.Remove key = none) ∧ (∀ bucketID pos, m.remove bucketID pos = none) :=
  ⟨{ equal := equal, hash := hash, buckets := [], len := 0,
     allocBuffer := 0, freeSlices := [] },
   rfl, rfl, fun _ => rfl, fun _ _ => rfl, fun _ _ => rfl, fun _ => rfl, fun _ _ => rfl⟩

/-- C10 (confirmed).  Whenever `Get` returns (does not panic), the map
state it hands back — length, buckets, slab and free list — is exactly the
state it was called on: `Get` mutates nothing. -/
theorem c10_get_is_pure {K V : Type} [Inhabited K] [Inhabited V]
    (m : Map K V) (key : K) (r : Option V × Map K V) (h : m.Get key = some r) :
    r.2 = m := by
  unfold Map.Get at h
  by_cases hb : m.buckets.length = 0
  · rw [if_pos hb] at h
    cases h
  · rw [if_neg hb] at h
    cases hfind : bucketFind m.equal (m.hash key) key
        (m.buckets.getD (m.hash key % m.buckets.length) nilSlice).data with
    | some p =>
      simp only [hfind] at h
      cases Option.some.inj h
      rfl
    | none =>
      simp only [hfind] at h
      cases Option.some.inj h
      rfl

/-- Witness for C10: `Get 5` on the concrete table `mOne` returns with the
state unchanged. -/
theorem c10_get_is_pure_witness : ((none : Option Nat), mOne).2 = mOne :=
  c10_get_is_pure mOne 5 (none, mOne) rfl

end Genmap
